import Mathlib

set_option maxRecDepth 100000

/-!
Verification development for the UCCA annotation-graph library.

The repository's own sources contain the unit-test suite
(`src/tests/test_ucca_ut.py`) and surrounding tooling (`src/features.py`,
`src/parsing/model.py`, `src/scripts/dixonization.py`, `src/uccaapp/api.py`).
The core modules `ucca/core.py`, `ucca/layer0.py` and `ucca/layer1.py` that
the tests import are not part of the source tree, so the data model and the
operations below are modelled from the specification (`spec.md`), with the
unit tests used to pin down behaviour the specification leaves open (layer-1
node ids, the hidden root node of layer 1, linkage edges).  The ngram
utilities of `src/features.py` are embedded directly from the source.
-/

/-- Modelled from the spec: the error kinds surfaced by the library that the
claims mention (`KeyError` for a missing layer, plus the Python `TypeError`
and `ValueError` raised by `features.py`). -/
inductive PyErr where
  | keyError
  | typeError
  | valueError
  deriving DecidableEq

/-- Modelled from the spec: a node identifier `<layerId>.<sequence>`; the id
encodes the owning layer as a prefix (spec §3), here as the `layer` field. -/
structure NId where
  layer : Nat
  index : Nat
  deriving DecidableEq

/-- Modelled from the spec: a node of the annotation graph.  The substrate
fields are `id` and `tag`; the `implicit` flag is an attribute of
foundational (layer-1) nodes, and `text`, `punct`, `paragraph`, `paraPos`
and `position` are the extra attributes of a layer-0 Terminal (spec §3).
Non-terminal nodes keep the terminal fields at their defaults. -/
structure PNode where
  id : NId
  tag : String
  implicit : Bool
  text : String
  punct : Bool
  paragraph : Nat
  paraPos : Nat
  position : Nat
  deriving DecidableEq

/-- Modelled from the spec: a directed edge owned by its source node, with a
tag, a child reference and the significant `remote` flag (spec §3).  In the
source an edge holds a reference to its parent node object, whose tag never
changes after creation; `parentTag` records that tag at edge-creation time so
that the primary-parent computation can test whether the source is a Linkage
node without a node-table lookup. -/
structure Edge where
  parent : NId
  parentTag : String
  tag : String
  child : NId
  remote : Bool
  deriving DecidableEq

/-- Modelled from the spec: a layer record; the passage keys layers by id
(spec §3, §4.2). -/
structure Layer where
  ID : Nat
  deriving DecidableEq

/-- Modelled from the spec: the root container.  `nodes` and `edges` are kept
in creation order (within a layer, creation order coincides with the id
order used by the default comparator).  `l0count` and `l1count` are the
next-free id sequence numbers of layer 0 and layer 1; ids are never reused
within a passage's lifetime (spec §4.4). -/
structure Passage where
  layers : List Layer
  nodes : List PNode
  edges : List Edge
  l0count : Nat
  l1count : Nat
  deriving DecidableEq

/-- Modelled from the spec: a fresh passage with no layers and no nodes. -/
def Passage.empty : Passage :=
  { layers := [], nodes := [], edges := [], l0count := 1, l1count := 1 }

/-- Tag constants of the foundational layer, as fixed by the legacy-XML tag
table of spec §6 ("L" = Linker, "H" = ParallelScene, "P"/"A"/"S"/"D"/"F"/
"C"/"E"/"U", etc.) and the node kinds of layer 1. -/
def tagTerminal : String := "Terminal"

def tagPunctuation : String := "U"

def tagProcess : String := "P"

def tagState : String := "S"

def tagLinkRelation : String := "LR"

def tagLinkArgument : String := "LA"

def tagFN : String := "FN"

def tagLKG : String := "LKG"

def tagPNCT : String := "PNCT"

/-- Modelled from the spec: node lookup by id in the passage's index. -/
def Passage.nodeById (p : Passage) (i : NId) : Option PNode :=
  p.nodes.find? (fun nd => nd.id == i)

/-- Modelled from the spec: whether a node with the given id currently exists
in the passage. -/
def hasNode (p : Passage) (i : NId) : Bool :=
  (p.nodeById i).isSome

/-- Modelled from the spec: the ordered sequence of nodes of one layer
(`Layer.all`); nodes are kept in creation order, which for layers 0 and 1 is
exactly the default order-by-id comparator of spec §4.2. -/
def layerAll (p : Passage) (lid : Nat) : List PNode :=
  p.nodes.filter (fun nd => nd.id.layer == lid)

/-- Modelled from the spec: the layer-0 terminals in position order. -/
def terminals (p : Passage) : List PNode :=
  layerAll p 0

/-- Modelled from the spec: the incoming edges of a node (the non-owning
back-reference set of spec §3). -/
def incoming (p : Passage) (n : NId) : List Edge :=
  p.edges.filter (fun e => e.child == n)

/-- Modelled from the spec: the ordered outgoing edges of a node. -/
def outgoing (p : Passage) (n : NId) : List Edge :=
  p.edges.filter (fun e => e.parent == n)

/-- Modelled from the spec: `Layer.heads` for the foundational layer — a node
is a head iff it has no incoming edge that is non-remote, i.e. every parent
edge pointing to it, if any, is a remote edge (spec §4.2). -/
def heads (p : Passage) (lid : Nat) : List PNode :=
  (layerAll p lid).filter (fun nd => (incoming p nd.id).all (fun e => e.remote))

/-- Modelled from the spec: `Passage.layer(id)` returns the layer, failing
with `KeyError` when absent (spec §4.2). -/
def Passage.layer (p : Passage) (i : Nat) : Except PyErr Layer :=
  match p.layers.find? (fun l => l.ID == i) with
  | some l => Except.ok l
  | none => Except.error PyErr.keyError

/-- Modelled from the spec: creating the terminal layer (layer 0) of a
passage (spec §2, §4.3). -/
def addLayer0 (p : Passage) : Passage :=
  { p with layers := p.layers ++ [⟨0⟩] }

/-- Modelled from the spec: creating the foundational layer (layer 1).  The
specification does not mention it, but per `Layer1Tests` the layer owns a
root foundational node (id 1.1) to which parentless `add_fnode`/`add_punct`
calls attach their new node, and which is the first head of the layer. -/
def addLayer1 (p : Passage) : Passage :=
  { p with layers := p.layers ++ [⟨1⟩],
           nodes := p.nodes ++ [⟨⟨1, p.l1count⟩, tagFN, false, "", false, 0, 0, 0⟩],
           l1count := p.l1count + 1 }

/-- Modelled from the spec: a passage with layer 0 and layer 1 installed, the
state in which `Layer1Tests._create_passage` starts building. -/
def newPassage : Passage :=
  addLayer1 (addLayer0 Passage.empty)

/-- Modelled from the spec: `Layer0.add_terminal(text, punct, paragraph=None,
position_in_paragraph=None)` — creates a Terminal with the next global
position (1-based, monotonically increasing across the whole layer in call
order), default paragraph = previous terminal's paragraph (or 1 if first),
default position-in-paragraph = 1 if the paragraph changed else previous + 1
(spec §4.3).  Returns the updated passage and the new terminal. -/
def add_terminal (p : Passage) (text : String) (pnct : Bool)
    (paragraph : Option Nat) (ppos : Option Nat) : Passage × PNode :=
  let prev := (terminals p).getLast?
  let par := paragraph.getD (match prev with
    | some t => t.paragraph
    | none => 1)
  let pp := ppos.getD (match prev with
    | some t => if par = t.paragraph then t.paraPos + 1 else 1
    | none => 1)
  let nd : PNode := ⟨⟨0, p.l0count⟩, if pnct then "Punct" else "Word",
    false, text, pnct, par, pp, p.l0count⟩
  ({ p with nodes := p.nodes ++ [nd], l0count := p.l0count + 1 }, nd)

/-- Modelled from the spec: `Layer1.add_fnode(parent, tag, implicit=False)` —
creates a foundational node with the next layer-1 id and a non-remote edge
`parent --tag--> new_node` (spec §4.4); a `None` parent attaches the node to
the layer's root foundational node 1.1, per `Layer1Tests`.  The call is only
reachable with a live parent handle, so a dangling parent id leaves the
passage unchanged. -/
def add_fnode (p : Passage) (parent : Option NId) (tag : String) (impl : Bool) : Passage :=
  let par := parent.getD ⟨1, 1⟩
  match p.nodeById par with
  | some parNd =>
    { p with nodes := p.nodes ++ [⟨⟨1, p.l1count⟩, tagFN, impl, "", false, 0, 0, 0⟩],
             edges := p.edges ++ [⟨par, parNd.tag, tag, ⟨1, p.l1count⟩, false⟩],
             l1count := p.l1count + 1 }
  | none => p

/-- Modelled from the spec: `Layer1.add_punct(parent, terminal)` — creates a
Punctuation-tagged foundational node with a single Terminal-tagged edge to
`terminal`, attached to `parent`, or to the layer's root node when `parent`
is `None` (spec §4.4, `Layer1Tests`).  Dangling handles leave the passage
unchanged. -/
def add_punct (p : Passage) (parent : Option NId) (term : NId) : Passage :=
  let par := parent.getD ⟨1, 1⟩
  match p.nodeById par, p.nodeById term with
  | some parNd, some tNd =>
    if tNd.id.layer == 0 then
      { p with nodes := p.nodes ++ [⟨⟨1, p.l1count⟩, tagPNCT, false, "", false, 0, 0, 0⟩],
               edges := p.edges ++
                 [⟨par, parNd.tag, tagPunctuation, ⟨1, p.l1count⟩, false⟩,
                  ⟨⟨1, p.l1count⟩, tagPNCT, tagTerminal, term, false⟩],
               l1count := p.l1count + 1 }
    else p
  | _, _ => p

/-- Modelled from the spec: `Layer1.add_remote(parent, tag, child)` — adds an
edge `parent --tag--> child` with `remote=True`; it does not change the
child's primary parent (spec §4.4). -/
def add_remote (p : Passage) (parent : NId) (tag : String) (child : NId) : Passage :=
  match p.nodeById parent, p.nodeById child with
  | some parNd, some _ =>
    { p with edges := p.edges ++ [⟨parent, parNd.tag, tag, child, true⟩] }
  | _, _ => p

/-- Modelled from the spec: `Layer1.add_linkage(relation, *arguments)` —
creates a Linkage node whose first edge is `relation` (tag `LR`) and whose
remaining edges are the given arguments (tag `LA`); the edges are ordinary
non-remote edges (spec §4.4). -/
def add_linkage (p : Passage) (relation : NId) (args : List NId) : Passage :=
  if hasNode p relation && args.all (hasNode p) then
    { p with nodes := p.nodes ++ [⟨⟨1, p.l1count⟩, tagLKG, false, "", false, 0, 0, 0⟩],
             edges := p.edges ++
               (⟨⟨1, p.l1count⟩, tagLKG, tagLinkRelation, relation, false⟩ ::
                 args.map (fun a => ⟨⟨1, p.l1count⟩, tagLKG, tagLinkArgument, a, false⟩)),
             l1count := p.l1count + 1 }
  else p

/-- Modelled from the spec: the generic `Node.add` operation as the tests use
it on foundational nodes to attach a layer-0 terminal through a
Terminal-tagged non-remote edge (`Layer1Tests._create_passage`). -/
def addTerminalEdge (p : Passage) (parent : NId) (term : NId) : Passage :=
  match p.nodeById parent, p.nodeById term with
  | some parNd, some tNd =>
    if tNd.id.layer == 0 then
      { p with edges := p.edges ++ [⟨parent, parNd.tag, tagTerminal, term, false⟩] }
    else p
  | _, _ => p

/-- Modelled from the spec: the generic `Node.add` operation as the tests use
it to append a further `LA` argument edge to a Linkage node after creation
(spec §4.4: the argument set is appendable later via the generic add). -/
def addLinkArgument (p : Passage) (lkg : NId) (arg : NId) : Passage :=
  match p.nodeById lkg with
  | some lkgNd =>
    if lkgNd.tag == tagLKG && hasNode p arg then
      { p with edges := p.edges ++ [⟨lkg, tagLKG, tagLinkArgument, arg, false⟩] }
    else p
  | none => p

/-- Modelled from the spec: `destroy(node)` — all of the node's outgoing
edges are removed, all incoming edges referencing it are removed from their
sources, and the node is removed from its layer and from the passage's id
index; destroying a node never destroys its children (spec §3, §4.1). -/
def destroy (p : Passage) (n : NId) : Passage :=
  { p with nodes := p.nodes.filter (fun nd => !(nd.id == n)),
           edges := p.edges.filter (fun e => !(e.parent == n) && !(e.child == n)) }

/-- Modelled from the spec: the mutating operations of the foundational and
terminal layers, as one fuzzable operation language (spec §8 asks for the
structural invariant to hold after every sequence of add/remote/destroy
operations). -/
inductive L1Op where
  | terminal (text : String) (pnct : Bool) (paragraph ppos : Option Nat)
  | fnode (parent : Option NId) (tag : String) (impl : Bool)
  | punct (parent : Option NId) (term : NId)
  | remote (parent : NId) (tag : String) (child : NId)
  | linkage (relation : NId) (args : List NId)
  | termEdge (parent : NId) (term : NId)
  | linkArg (lkg : NId) (arg : NId)
  | destroyOp (n : NId)

/-- Modelled from the spec: executing one operation against a passage. -/
def exec (p : Passage) : L1Op → Passage
  | L1Op.terminal text pnct paragraph ppos => (add_terminal p text pnct paragraph ppos).1
  | L1Op.fnode parent tag impl => add_fnode p parent tag impl
  | L1Op.punct parent term => add_punct p parent term
  | L1Op.remote parent tag child => add_remote p parent tag child
  | L1Op.linkage relation args => add_linkage p relation args
  | L1Op.termEdge parent term => addTerminalEdge p parent term
  | L1Op.linkArg lkg arg => addLinkArgument p lkg arg
  | L1Op.destroyOp n => destroy p n

/-- Modelled from the spec: executing a sequence of operations. -/
def execList (p : Passage) (ops : List L1Op) : Passage :=
  ops.foldl exec p

/-- Predicate selecting the incoming edges that are candidates for the
primary parent: non-remote edges whose source is not a Linkage node.  The
specification's `fparent` speaks of "the unique non-remote incoming edge"
(spec §4.4); `Layer1Tests.test_fnodes` shows that the non-remote `LA` edge a
Linkage adds to each of its arguments does not participate (`ps1.fparent` is
the layer root even while `ps1` is an argument of a linkage). -/
def primPred (n : NId) (e : Edge) : Bool :=
  e.child == n && !e.remote && !(e.parentTag == tagLKG)

/-- Modelled from the spec: the incoming edges of a node that can confer a
primary parent. -/
def primaryEdges (p : Passage) (n : NId) : List Edge :=
  p.edges.filter (primPred n)

/-- Modelled from the spec: primary-parent (`fparent`) resolution — the
source of the unique non-remote (non-linkage) incoming edge, or none when no
such edge exists (spec §4.4). -/
def fparent (p : Passage) (n : NId) : Option NId :=
  (primaryEdges p n).head?.map (fun e => e.parent)

/-- Modelled from the spec: scene decomposition — the Process/State-tagged
child edge of a node, if any.  `Layer1Tests.test_fnodes` (`ps2.process` is
the remote process `p1`) and `test_layer1` (a remote Process edge turns
`ps23` into a Scene) show that remote edges participate. -/
def processEdge (p : Passage) (n : NId) : Option Edge :=
  (outgoing p n).find? (fun e => e.tag == tagProcess || e.tag == tagState)

/-- Modelled from the spec: a node is a Scene when it has a Process or State
child edge (spec §3, §4.4). -/
def isScene (p : Passage) (n : NId) : Bool :=
  (processEdge p n).isSome

/-- Modelled from the spec: a Scene is top-level iff its primary parent (if
any) is not itself a Scene (spec §4.4). -/
def isTopScene (p : Passage) (n : NId) : Bool :=
  isScene p n &&
    (match fparent p n with
     | none => true
     | some f => !isScene p f)

/-- Modelled from the spec: `top_scenes` — the outermost scenes of the
foundational layer, in the layer's order (spec §4.4). -/
def top_scenes (p : Passage) : List PNode :=
  (layerAll p 1).filter (fun nd => isTopScene p nd.id)

/-- Modelled from the spec: the arguments a Linkage node references, i.e. the
children of its `LA`-tagged edges, in child order (spec §4.4). -/
def linkageArguments (p : Passage) (n : NId) : List NId :=
  ((outgoing p n).filter (fun e => e.tag == tagLinkArgument)).map (fun e => e.child)

/-- Modelled from the spec: whether a node is transitively a top-level scene,
i.e. the node itself or one of its primary-parent ancestors is a top-level
scene (spec §4.4 on top-level linkages, disambiguated by
`Layer1Tests.test_layer1`: after `ps23` becomes a scene, the linkage over the
nested scenes `ps2`/`ps3` is still top-level because their ancestor `ps23`
is).  `fuel` bounds the ancestor climb by the number of nodes. -/
def reachesTopScene (p : Passage) : Nat → NId → Bool
  | 0, _ => false
  | fuel + 1, n =>
    isTopScene p n ||
      (match fparent p n with
       | some f => reachesTopScene p fuel f
       | none => false)

/-- Modelled from the spec: `top_linkages` — a Linkage is top-level iff every
argument it references is (transitively) a top-level scene (spec §4.4). -/
def top_linkages (p : Passage) : List PNode :=
  (layerAll p 1).filter (fun nd =>
    nd.tag == tagLKG &&
      (linkageArguments p nd.id).all (reachesTopScene p (p.nodes.length + 1)))

/-- Insertion of a position into a sorted duplicate-free list, keeping it
sorted and duplicate-free; spec §4.4 requires `get_terminals` to sort
positions before returning and to contain no duplicates even if a terminal
is reachable via multiple paths. -/
def sinsert (x : Nat) : List Nat → List Nat
  | [] => [x]
  | y :: ys => if x < y then x :: y :: ys else if x = y then y :: ys else y :: sinsert x ys

/-- Sorting with duplicate removal, folding `sinsert` over the collected
positions. -/
def sortu (l : List Nat) : List Nat :=
  l.foldr sinsert []

/-- Modelled from the spec: the position a node id resolves to (terminals
carry their global position; other nodes resolve to 0, never reached by the
traversal). -/
def positionOf (p : Passage) (i : NId) : Nat :=
  match p.nodeById i with
  | some nd => nd.position
  | none => 0

/-- Modelled from the spec: the depth-first collection step of
`get_terminals(punct, remotes)` — Terminal-tagged descendants reachable
through non-remote edges (and additionally through remote edges if
`remotes`), skipping subtrees hanging off a Punctuation-tagged edge unless
`punct` (spec §4.4).  `fuel` bounds the recursion depth. -/
def gtAux (p : Passage) (punct remotes : Bool) : Nat → NId → List Nat
  | 0, _ => []
  | fuel + 1, n =>
    (outgoing p n).flatMap (fun e =>
      if e.remote && !remotes then []
      else if e.tag == tagTerminal then [positionOf p e.child]
      else if e.tag == tagPunctuation && !punct then []
      else gtAux p punct remotes fuel e.child)

/-- Modelled from the spec: terminal-span extraction
`get_terminals(punct=True, remotes=False)`, returning the positions of the
collected terminals sorted in increasing order without duplicates
(spec §4.4). -/
def get_terminals (p : Passage) (n : NId) (punct remotes : Bool) : List Nat :=
  sortu (gtAux p punct remotes (p.edges.length + 1) n)

/-- Modelled from the spec: `start_position` — the minimum position among
`get_terminals()` with default flags, or the sentinel -1 when the node has
no terminals (spec §4.4). -/
def start_position (p : Passage) (n : NId) : Int :=
  match get_terminals p n true false with
  | [] => -1
  | h :: _ => (h : Int)

/-- Modelled from the spec: `end_position` — the maximum position among
`get_terminals()` with default flags, or -1 when the node has no terminals
(spec §4.4). -/
def end_position (p : Passage) (n : NId) : Int :=
  match (get_terminals p n true false).getLast? with
  | none => -1
  | some x => (x : Int)

/-- Whitespace test matching Python's `str.strip()` / `str.split()` default
for the characters occurring in ngram files. -/
def pyIsSpace (c : Char) : Bool :=
  c == ' ' || c == '\t' || c == '\n' || c == '\r'

/-- Python `str.strip()` on the character list of a string. -/
def pyStrip (s : List Char) : List Char :=
  ((s.dropWhile pyIsSpace).reverse.dropWhile pyIsSpace).reverse

/-- Python `str.split('\t')`: split at every tab, keeping empty parts. -/
def pySplitTab : List Char → List Char → List (List Char)
  | acc, [] => [acc.reverse]
  | acc, c :: cs =>
    if c == '\t' then acc.reverse :: pySplitTab [] cs
    else pySplitTab (c :: acc) cs

/-- Python `str.split()` with no separator: split on whitespace runs,
discarding empty tokens. -/
def pyWords : List Char → List (List Char)
  | [] => []
  | c :: cs =>
    if pyIsSpace c then pyWords cs
    else
      match pyWords cs, cs with
      | [], _ => [[c]]
      | w :: ws, d :: _ => if pyIsSpace d then [c] :: w :: ws else (c :: w) :: ws
      | w :: ws, [] => (c :: w) :: ws

/-- Python `int(s)` on a digit string with an optional sign, as used by
`parse_ngram_line`; `none` models the `ValueError` of a malformed number. -/
def pyInt (s : List Char) : Option Int :=
  let digits (l : List Char) : Option Nat :=
    if l.isEmpty then none
    else if l.all Char.isDigit then
      some (l.foldl (fun acc c => acc * 10 + (c.toNat - '0'.toNat)) 0)
    else none
  match s with
  | '-' :: rest => (digits rest).map (fun n => -(n : Int))
  | '+' :: rest => (digits rest).map (fun n => (n : Int))
  | _ => (digits s).map (fun n => (n : Int))

/-- Embedded from `src/features.py` (`parse_ngram_line`): strip the line,
split it on the tab into exactly a count and an ngram part (any other shape
raises `ValueError`, modelled as `none`), parse the count as an int and
split the ngram into its tokens. -/
def parse_ngram_line (line : String) : Option (Int × List (List Char)) :=
  match pySplitTab [] (pyStrip line.data) with
  | [count, ngram] =>
    match pyInt count with
    | some k => some (k, pyWords ngram)
    | none => none
  | _ => none

/-- The ngram tuple the j-th line parses to, if any. -/
def ngramAt (lines : List String) (j : Nat) : Option (List (List Char)) :=
  (parse_ngram_line (lines.getD j "")).map (fun x => x.2)

/-- Embedded from `src/features.py` (`merge_ngrams`): the `while i + 1 <
total` loop.  It parses the adjacent lines `i` and `i + 1`; when their
ngrams are equal the source executes `'\t'.join(str(count1 + count2),
ngram1)`, which calls `str.join` with two positional arguments and therefore
raises `TypeError` before the merged line, the `del`, or the `total`
decrement can happen, so the list is never modified.  A line that fails to
parse raises `ValueError` as in the source.  `fuel` bounds the loop; started
at `lines.length` it never runs out. -/
def merge_go (lines : List String) : Nat → Nat → Except PyErr (List String)
  | _, 0 => Except.ok lines
  | i, fuel + 1 =>
    if i + 1 < lines.length then
      match parse_ngram_line (lines.getD i "") with
      | none => Except.error PyErr.valueError
      | some (_, n1) =>
        match parse_ngram_line (lines.getD (i + 1) "") with
        | none => Except.error PyErr.valueError
        | some (_, n2) =>
          if n1 = n2 then Except.error PyErr.typeError
          else merge_go lines (i + 1) fuel
    else Except.ok lines

/-- Embedded from `src/features.py` (`merge_ngrams`). -/
def merge_ngrams (lines : List String) : Except PyErr (List String) :=
  merge_go lines 0 lines.length

/-- Shorthand for a terminal-creation call with default paragraph data. -/
def termOp (i : Nat) : L1Op :=
  L1Op.terminal (toString i) (decide (i % 10 = 0)) none none

/-- The operation sequence of `Layer1Tests._create_passage`: 20 terminals
(positions 10 and 20 are punctuation), a linker over terminal 1, scene `ps1`
(process 2-5, participant 6-9, punctuation 10), grouping node `ps23` with
scene `ps2` (participant 11-14, adverbial 15), linker 16 and scene `ps3`
(state 17-18, participant 19, implicit participant), punctuation 20 under
the root, a remote Participant from `ps1` to `d2`, a remote Process from
`ps2` to `p1`, and the linkages `lkg1 = (link1; ps1)` and
`lkg2 = (link2; ps2, ps3)`.  Node ids follow creation order: root 1.1,
link1 1.2, ps1 1.3, p1 1.4, a1 1.5, punct1 1.6, ps23 1.7, ps2 1.8, a2 1.9,
d2 1.10, link2 1.11, ps3 1.12, p3 1.13, a3 1.14, a4 1.15, punct2 1.16,
lkg1 1.17, lkg2 1.18. -/
def fixtureOps : List L1Op :=
  (List.range' 1 20).map termOp ++
  [L1Op.fnode none "L" false,
   L1Op.termEdge ⟨1, 2⟩ ⟨0, 1⟩,
   L1Op.fnode none "H" false,
   L1Op.fnode (some ⟨1, 3⟩) "P" false,
   L1Op.fnode (some ⟨1, 3⟩) "A" false,
   L1Op.termEdge ⟨1, 4⟩ ⟨0, 2⟩,
   L1Op.termEdge ⟨1, 4⟩ ⟨0, 3⟩,
   L1Op.termEdge ⟨1, 4⟩ ⟨0, 4⟩,
   L1Op.termEdge ⟨1, 4⟩ ⟨0, 5⟩,
   L1Op.termEdge ⟨1, 5⟩ ⟨0, 6⟩,
   L1Op.termEdge ⟨1, 5⟩ ⟨0, 7⟩,
   L1Op.termEdge ⟨1, 5⟩ ⟨0, 8⟩,
   L1Op.termEdge ⟨1, 5⟩ ⟨0, 9⟩,
   L1Op.punct (some ⟨1, 3⟩) ⟨0, 10⟩,
   L1Op.fnode none "H" false,
   L1Op.fnode (some ⟨1, 7⟩) "H" false,
   L1Op.fnode (some ⟨1, 8⟩) "A" false,
   L1Op.termEdge ⟨1, 9⟩ ⟨0, 11⟩,
   L1Op.termEdge ⟨1, 9⟩ ⟨0, 12⟩,
   L1Op.termEdge ⟨1, 9⟩ ⟨0, 13⟩,
   L1Op.termEdge ⟨1, 9⟩ ⟨0, 14⟩,
   L1Op.fnode (some ⟨1, 8⟩) "D" false,
   L1Op.termEdge ⟨1, 10⟩ ⟨0, 15⟩,
   L1Op.fnode (some ⟨1, 7⟩) "L" false,
   L1Op.termEdge ⟨1, 11⟩ ⟨0, 16⟩,
   L1Op.fnode (some ⟨1, 7⟩) "H" false,
   L1Op.fnode (some ⟨1, 12⟩) "S" false,
   L1Op.termEdge ⟨1, 13⟩ ⟨0, 17⟩,
   L1Op.termEdge ⟨1, 13⟩ ⟨0, 18⟩,
   L1Op.fnode (some ⟨1, 12⟩) "A" false,
   L1Op.termEdge ⟨1, 14⟩ ⟨0, 19⟩,
   L1Op.fnode (some ⟨1, 12⟩) "A" true,
   L1Op.punct none ⟨0, 20⟩,
   L1Op.remote ⟨1, 3⟩ "A" ⟨1, 10⟩,
   L1Op.remote ⟨1, 8⟩ "P" ⟨1, 4⟩,
   L1Op.linkage ⟨1, 2⟩ [⟨1, 3⟩],
   L1Op.linkage ⟨1, 11⟩ [⟨1, 8⟩, ⟨1, 12⟩]]

/-- The passage built by `Layer1Tests._create_passage`. -/
def fixture : Passage :=
  execList newPassage fixtureOps

/-- The fixture after `lkg1.add(LinkArgument, ps23)`
(`Layer1Tests.test_layer1`). -/
def fixtureA : Passage :=
  addLinkArgument fixture ⟨1, 17⟩ ⟨1, 7⟩

/-- The previous state after `l1.add_remote(ps23, Process, p1)`
(`Layer1Tests.test_layer1`). -/
def fixtureB : Passage :=
  add_remote fixtureA ⟨1, 7⟩ "P" ⟨1, 4⟩

/-- A small passage in which node 1.3's only surviving parent edge is
remote: two nodes are created under the layer root, a remote edge is added
from 1.2 to 1.3, and the root is destroyed (cf. `CoreTests.test_modifying`,
which destroys a node and re-queries `heads`). -/
def smallOps : List L1Op :=
  [L1Op.fnode none "H" false,
   L1Op.fnode none "A" false,
   L1Op.remote ⟨1, 2⟩ "A" ⟨1, 3⟩,
   L1Op.destroyOp ⟨1, 1⟩]

/-- The small passage with a remote-only parent. -/
def smallPassage : Passage :=
  execList newPassage smallOps

theorem mem_sinsert {a x : Nat} {l : List Nat} : a ∈ sinsert x l ↔ a = x ∨ a ∈ l := by
  induction l with
  | nil => simp [sinsert]
  | cons y ys ih =>
    simp only [sinsert]
    split
    · simp [List.mem_cons]
    · split
      · rename_i h1 h2
        subst h2
        simp only [List.mem_cons]
        tauto
      · simp only [List.mem_cons, ih]
        tauto

theorem sorted_sinsert {x : Nat} {l : List Nat}
    (h : List.Sorted (fun a b => a < b) l) :
    List.Sorted (fun a b => a < b) (sinsert x l) := by
  induction l with
  | nil => simp [sinsert]
  | cons y ys ih =>
    rw [List.sorted_cons] at h
    obtain ⟨hy, hys⟩ := h
    simp only [sinsert]
    split
    · rename_i h1
      rw [List.sorted_cons]
      refine ⟨?_, ?_⟩
      · intro b hb
        rcases List.mem_cons.mp hb with rfl | hb
        · exact h1
        · exact h1.trans (hy b hb)
      · rw [List.sorted_cons]
        exact ⟨hy, hys⟩
    · split
      · rename_i h1 h2
        subst h2
        rw [List.sorted_cons]
        exact ⟨hy, hys⟩
      · rename_i h1 h2
        rw [List.sorted_cons]
        refine ⟨?_, ih hys⟩
        intro b hb
        rcases mem_sinsert.mp hb with rfl | hb
        · omega
        · exact hy b hb

theorem sortu_sorted (l : List Nat) : List.Sorted (fun a b => a < b) (sortu l) := by
  induction l with
  | nil => simp [sortu]
  | cons x xs ih => exact sorted_sinsert ih

theorem get_terminals_sorted (p : Passage) (n : NId) (punct remotes : Bool) :
    List.Sorted (fun a b => a < b) (get_terminals p n punct remotes) :=
  sortu_sorted _

theorem sorted_cons_le {y : Nat} {ys : List Nat}
    (h : List.Sorted (fun a b => a < b) (y :: ys)) : ∀ x ∈ y :: ys, y ≤ x := by
  rw [List.sorted_cons] at h
  intro x hx
  rcases List.mem_cons.mp hx with rfl | hx
  · exact le_refl x
  · exact Nat.le_of_lt (h.1 x hx)

theorem sorted_getLast_ge {l : List Nat}
    (h : List.Sorted (fun a b => a < b) l) :
    ∀ x ∈ l, ∀ b, l.getLast? = some b → x ≤ b := by
  induction l with
  | nil => simp
  | cons y ys ih =>
    rw [List.sorted_cons] at h
    intro x hx b hb
    cases ys with
    | nil =>
      simp only [List.getLast?_singleton, Option.some.injEq] at hb
      simp only [List.mem_singleton] at hx
      omega
    | cons z zs =>
      rw [List.getLast?_cons_cons] at hb
      rcases List.mem_cons.mp hx with rfl | hx
      · have hzb := ih h.2 z (List.mem_cons_self z zs) b hb
        have hyz := h.1 z (List.mem_cons_self z zs)
        omega
      · exact ih h.2 x hx b hb

theorem getLast?_mem_list {l : List Nat} {b : Nat} (h : l.getLast? = some b) : b ∈ l := by
  induction l with
  | nil => simp at h
  | cons y ys ih =>
    cases ys with
    | nil =>
      simp only [List.getLast?_singleton, Option.some.injEq] at h
      simp [h]
    | cons z zs =>
      rw [List.getLast?_cons_cons] at h
      exact List.mem_cons_of_mem y (ih h)

theorem nodeById_some {p : Passage} {i : NId} {nd : PNode}
    (h : p.nodeById i = some nd) : nd ∈ p.nodes ∧ nd.id = i := by
  unfold Passage.nodeById at h
  refine ⟨List.mem_of_find?_eq_some h, ?_⟩
  have := List.find?_some h
  simpa using this

/-- Modelled from the spec: the set of non-remote incoming edges of a node,
with no filtering at all — the quantity spec §8's invariant literally speaks
about. -/
def nonRemoteIncoming (p : Passage) (n : NId) : List Edge :=
  p.edges.filter (fun e => e.child == n && !e.remote)

/-- Structural invariant of reachable passages: every layer-1 node has at
most one incoming edge that can confer a primary parent. -/
def primaryInvariant (p : Passage) : Prop :=
  ∀ n : NId, n.layer = 1 → (primaryEdges p n).length ≤ 1

/-- Well-formedness of a passage under construction: layer-1 node ids and
layer-1 edge targets stay below the id counter, and the primary-parent
invariant holds. -/
def WFpassage (p : Passage) : Prop :=
  (∀ nd ∈ p.nodes, nd.id.layer = 1 → nd.id.index < p.l1count)
  ∧ (∀ e ∈ p.edges, e.child.layer = 1 → e.child.index < p.l1count)
  ∧ primaryInvariant p

theorem primPred_false_of_child_ne {n : NId} {e : Edge} (h : e.child ≠ n) :
    primPred n e = false := by
  unfold primPred
  rw [beq_eq_false_iff_ne.mpr h]
  rfl

theorem primPred_false_of_remote {n : NId} {e : Edge} (h : e.remote = true) :
    primPred n e = false := by
  simp [primPred, h]

theorem primPred_false_of_lkg {n : NId} {e : Edge} (h : e.parentTag = tagLKG) :
    primPred n e = false := by
  simp [primPred, h]

theorem hasNode_exists {p : Passage} {i : NId} (h : hasNode p i = true) :
    ∃ nd ∈ p.nodes, nd.id = i := by
  unfold hasNode at h
  rw [Option.isSome_iff_exists] at h
  obtain ⟨nd, hnd⟩ := h
  obtain ⟨hm, hi⟩ := nodeById_some hnd
  exact ⟨nd, hm, hi⟩

theorem old_edges_no_fresh {p : Passage}
    (h2 : ∀ e ∈ p.edges, e.child.layer = 1 → e.child.index < p.l1count) :
    p.edges.filter (primPred ⟨1, p.l1count⟩) = [] := by
  rw [List.filter_eq_nil_iff]
  intro e he
  rw [primPred_false_of_child_ne ?_]
  · simp
  · intro hc
    have hlt := h2 e he (by rw [hc])
    rw [hc] at hlt
    exact Nat.lt_irrefl _ hlt

theorem primaryInvariant_extend {p : Passage} (es : List Edge)
    (hp : primaryInvariant p)
    (hsmall : ∀ n : NId, n.layer = 1 → (es.filter (primPred n)).length ≤ 1)
    (hdisj : ∀ n : NId, n.layer = 1 →
      es.filter (primPred n) = [] ∨ p.edges.filter (primPred n) = [])
    (q : Passage) (hq : q.edges = p.edges ++ es) :
    primaryInvariant q := by
  intro n hl
  unfold primaryEdges
  rw [hq, List.filter_append, List.length_append]
  rcases hdisj n hl with h | h
  · rw [h]
    simpa [primaryEdges] using hp n hl
  · rw [h]
    simpa using hsmall n hl

theorem wf_add_terminal {p : Passage} (hw : WFpassage p) (text : String)
    (pn : Bool) (parag pps : Option Nat) :
    WFpassage (add_terminal p text pn parag pps).1 := by
  obtain ⟨h1, h2, h3⟩ := hw
  refine ⟨?_, h2, h3⟩
  intro nd hnd hl
  simp only [add_terminal, List.mem_append, List.mem_singleton] at hnd
  rcases hnd with hnd | rfl
  · exact h1 nd hnd hl
  · simp at hl

theorem wf_add_fnode {p : Passage} (hw : WFpassage p) (parent : Option NId)
    (tag : String) (impl : Bool) :
    WFpassage (add_fnode p parent tag impl) := by
  obtain ⟨h1, h2, h3⟩ := hw
  simp only [add_fnode]
  cases hfind : p.nodeById (parent.getD ⟨1, 1⟩) with
  | none => exact ⟨h1, h2, h3⟩
  | some parNd =>
    refine ⟨?_, ?_, ?_⟩
    · intro nd hnd hl
      simp only [List.mem_append, List.mem_singleton] at hnd
      rcases hnd with hnd | rfl
      · exact Nat.lt_succ_of_lt (h1 nd hnd hl)
      · exact Nat.lt_succ_self _
    · intro e he hl
      simp only [List.mem_append, List.mem_singleton] at he
      rcases he with he | rfl
      · exact Nat.lt_succ_of_lt (h2 e he hl)
      · exact Nat.lt_succ_self _
    · refine primaryInvariant_extend
        [⟨parent.getD ⟨1, 1⟩, parNd.tag, tag, ⟨1, p.l1count⟩, false⟩] h3 ?_ ?_ _ rfl
      · intro n _
        calc (List.filter (primPred n) [_]).length ≤ [_].length := List.length_filter_le _ _
          _ ≤ 1 := by simp
      · intro n _
        by_cases hn : n = (⟨1, p.l1count⟩ : NId)
        · subst hn
          exact Or.inr (old_edges_no_fresh h2)
        · left
          rw [List.filter_eq_nil_iff]
          intro e he
          rw [List.mem_singleton] at he
          subst he
          rw [primPred_false_of_child_ne (fun hc => hn hc.symm)]
          simp

theorem wf_add_punct {p : Passage} (hw : WFpassage p) (parent : Option NId)
    (term : NId) :
    WFpassage (add_punct p parent term) := by
  obtain ⟨h1, h2, h3⟩ := hw
  simp only [add_punct]
  cases hf1 : p.nodeById (parent.getD ⟨1, 1⟩) with
  | none => exact ⟨h1, h2, h3⟩
  | some parNd =>
    cases hf2 : p.nodeById term with
    | none => exact ⟨h1, h2, h3⟩
    | some tNd =>
      obtain ⟨htm, hti⟩ := nodeById_some hf2
      dsimp only
      by_cases h0 : tNd.id.layer == 0
      · rw [if_pos h0]
        have hterm0 : term.layer = 0 := by
          rw [← hti]
          exact beq_iff_eq.mp h0
        refine ⟨?_, ?_, ?_⟩
        · intro nd hnd hl
          simp only [List.mem_append, List.mem_singleton] at hnd
          rcases hnd with hnd | rfl
          · exact Nat.lt_succ_of_lt (h1 nd hnd hl)
          · exact Nat.lt_succ_self _
        · intro e he hl
          simp only [List.mem_append, List.mem_cons, List.mem_singleton,
            List.not_mem_nil, or_false] at he
          rcases he with he | rfl | rfl
          · exact Nat.lt_succ_of_lt (h2 e he hl)
          · exact Nat.lt_succ_self _
          · rw [show (⟨⟨1, p.l1count⟩, tagPNCT, tagTerminal, term, false⟩ : Edge).child = term from rfl] at hl
            rw [hterm0] at hl
            exact absurd hl (by decide)
        · refine primaryInvariant_extend
            [⟨parent.getD ⟨1, 1⟩, parNd.tag, tagPunctuation, ⟨1, p.l1count⟩, false⟩,
             ⟨⟨1, p.l1count⟩, tagPNCT, tagTerminal, term, false⟩] h3 ?_ ?_ _ rfl
          · intro n hl
            have hne : term ≠ n := by
              intro hc
              rw [hc] at hterm0
              rw [hterm0] at hl
              exact absurd hl (by decide)
            rw [List.filter_cons, List.filter_cons,
              primPred_false_of_child_ne (show (⟨⟨1, p.l1count⟩, tagPNCT, tagTerminal, term, false⟩ : Edge).child ≠ n from hne)]
            split <;> simp
          · intro n hl
            have hne : term ≠ n := by
              intro hc
              rw [hc] at hterm0
              rw [hterm0] at hl
              exact absurd hl (by decide)
            by_cases hn : n = (⟨1, p.l1count⟩ : NId)
            · subst hn
              exact Or.inr (old_edges_no_fresh h2)
            · left
              rw [List.filter_eq_nil_iff]
              intro e he
              rcases List.mem_cons.mp he with rfl | he
              · rw [primPred_false_of_child_ne (fun hc => hn hc.symm)]
                simp
              · rw [List.mem_singleton] at he
                subst he
                rw [primPred_false_of_child_ne hne]
                simp
      · rw [if_neg h0]
        exact ⟨h1, h2, h3⟩

theorem lkg_edges_filter_nil (n : NId) (es : List Edge)
    (h : ∀ e ∈ es, e.parentTag = tagLKG) : es.filter (primPred n) = [] := by
  rw [List.filter_eq_nil_iff]
  intro e he
  rw [primPred_false_of_lkg (h e he)]
  simp

theorem wf_add_remote {p : Passage} (hw : WFpassage p) (parent : NId)
    (tag : String) (child : NId) :
    WFpassage (add_remote p parent tag child) := by
  obtain ⟨h1, h2, h3⟩ := hw
  simp only [add_remote]
  cases hf1 : p.nodeById parent with
  | none => exact ⟨h1, h2, h3⟩
  | some parNd =>
    cases hf2 : p.nodeById child with
    | none => exact ⟨h1, h2, h3⟩
    | some cNd =>
      obtain ⟨hcm, hci⟩ := nodeById_some hf2
      dsimp only
      refine ⟨h1, ?_, ?_⟩
      · intro e he hl
        simp only [List.mem_append, List.mem_singleton] at he
        rcases he with he | rfl
        · exact h2 e he hl
        · have := h1 cNd hcm
          rw [hci] at this
          exact this hl
      · refine primaryInvariant_extend [⟨parent, parNd.tag, tag, child, true⟩] h3 ?_ ?_ _ rfl
        · intro n _
          rw [List.filter_cons, primPred_false_of_remote rfl]
          simp
        · intro n _
          left
          rw [List.filter_eq_nil_iff]
          intro e he
          rw [List.mem_singleton] at he
          subst he
          rw [primPred_false_of_remote rfl]
          simp

theorem wf_add_linkage {p : Passage} (hw : WFpassage p) (relation : NId)
    (args : List NId) :
    WFpassage (add_linkage p relation args) := by
  obtain ⟨h1, h2, h3⟩ := hw
  simp only [add_linkage]
  by_cases hg : (hasNode p relation && args.all (hasNode p)) = true
  · rw [if_pos hg]
    rw [Bool.and_eq_true] at hg
    obtain ⟨hrel, hargs⟩ := hg
    have hall : ∀ e ∈ (⟨⟨1, p.l1count⟩, tagLKG, tagLinkRelation, relation, false⟩ ::
        args.map (fun a => ⟨⟨1, p.l1count⟩, tagLKG, tagLinkArgument, a, false⟩) : List Edge),
        e.parentTag = tagLKG := by
      intro e he
      rcases List.mem_cons.mp he with rfl | he
      · rfl
      · rw [List.mem_map] at he
        obtain ⟨a, _, rfl⟩ := he
        rfl
    refine ⟨?_, ?_, ?_⟩
    · intro nd hnd hl
      simp only [List.mem_append, List.mem_singleton] at hnd
      rcases hnd with hnd | rfl
      · exact Nat.lt_succ_of_lt (h1 nd hnd hl)
      · exact Nat.lt_succ_self _
    · intro e he hl
      simp only [List.mem_append, List.mem_cons, List.mem_map] at he
      rcases he with he | rfl | ⟨a, ha, rfl⟩
      · exact Nat.lt_succ_of_lt (h2 e he hl)
      · obtain ⟨nd, hm, hi⟩ := hasNode_exists hrel
        have := h1 nd hm
        rw [hi] at this
        exact Nat.lt_succ_of_lt (this hl)
      · have hha : hasNode p a = true := by
          rw [List.all_eq_true] at hargs
          exact hargs a ha
        obtain ⟨nd, hm, hi⟩ := hasNode_exists hha
        have := h1 nd hm
        rw [hi] at this
        exact Nat.lt_succ_of_lt (this hl)
    · refine primaryInvariant_extend _ h3 ?_ ?_ _ rfl
      · intro n _
        rw [lkg_edges_filter_nil n _ hall]
        simp
      · intro n _
        exact Or.inl (lkg_edges_filter_nil n _ hall)
  · rw [if_neg hg]
    exact ⟨h1, h2, h3⟩

theorem wf_addTerminalEdge {p : Passage} (hw : WFpassage p) (parent term : NId) :
    WFpassage (addTerminalEdge p parent term) := by
  obtain ⟨h1, h2, h3⟩ := hw
  simp only [addTerminalEdge]
  cases hf1 : p.nodeById parent with
  | none => exact ⟨h1, h2, h3⟩
  | some parNd =>
    cases hf2 : p.nodeById term with
    | none => exact ⟨h1, h2, h3⟩
    | some tNd =>
      obtain ⟨htm, hti⟩ := nodeById_some hf2
      dsimp only
      by_cases h0 : (tNd.id.layer == 0) = true
      · rw [if_pos h0]
        have hterm0 : term.layer = 0 := by
          rw [← hti]
          exact beq_iff_eq.mp h0
        refine ⟨h1, ?_, ?_⟩
        · intro e he hl
          simp only [List.mem_append, List.mem_singleton] at he
          rcases he with he | rfl
          · exact h2 e he hl
          · rw [show (⟨parent, parNd.tag, tagTerminal, term, false⟩ : Edge).child = term from rfl] at hl
            rw [hterm0] at hl
            exact absurd hl (by decide)
        · refine primaryInvariant_extend [⟨parent, parNd.tag, tagTerminal, term, false⟩] h3 ?_ ?_ _ rfl
          · intro n hl
            have hne : term ≠ n := by
              intro hc
              rw [hc] at hterm0
              rw [hterm0] at hl
              exact absurd hl (by decide)
            rw [List.filter_cons, primPred_false_of_child_ne hne]
            simp
          · intro n hl
            have hne : term ≠ n := by
              intro hc
              rw [hc] at hterm0
              rw [hterm0] at hl
              exact absurd hl (by decide)
            left
            rw [List.filter_eq_nil_iff]
            intro e he
            rw [List.mem_singleton] at he
            subst he
            rw [primPred_false_of_child_ne hne]
            simp
      · rw [if_neg h0]
        exact ⟨h1, h2, h3⟩

theorem wf_addLinkArgument {p : Passage} (hw : WFpassage p) (lkg arg : NId) :
    WFpassage (addLinkArgument p lkg arg) := by
  obtain ⟨h1, h2, h3⟩ := hw
  simp only [addLinkArgument]
  cases hf : p.nodeById lkg with
  | none => exact ⟨h1, h2, h3⟩
  | some lkgNd =>
    dsimp only
    by_cases hg : (lkgNd.tag == tagLKG && hasNode p arg) = true
    · rw [if_pos hg]
      rw [Bool.and_eq_true] at hg
      refine ⟨h1, ?_, ?_⟩
      · intro e he hl
        simp only [List.mem_append, List.mem_singleton] at he
        rcases he with he | rfl
        · exact h2 e he hl
        · obtain ⟨nd, hm, hi⟩ := hasNode_exists hg.2
          have := h1 nd hm
          rw [hi] at this
          exact this hl
      · refine primaryInvariant_extend [⟨lkg, tagLKG, tagLinkArgument, arg, false⟩] h3 ?_ ?_ _ rfl
        · intro n _
          rw [lkg_edges_filter_nil n _ ?_]
          · simp
          · intro e he
            rw [List.mem_singleton] at he
            subst he
            rfl
        · intro n _
          refine Or.inl (lkg_edges_filter_nil n _ ?_)
          intro e he
          rw [List.mem_singleton] at he
          subst he
          rfl
    · rw [if_neg hg]
      exact ⟨h1, h2, h3⟩

theorem wf_destroy {p : Passage} (hw : WFpassage p) (n : NId) :
    WFpassage (destroy p n) := by
  obtain ⟨h1, h2, h3⟩ := hw
  refine ⟨?_, ?_, ?_⟩
  · intro nd hnd hl
    exact h1 nd (List.mem_of_mem_filter hnd) hl
  · intro e he hl
    exact h2 e (List.mem_of_mem_filter he) hl
  · intro m hm
    have hsub : (primaryEdges (destroy p n) m).Sublist (primaryEdges p m) := by
      unfold primaryEdges destroy
      exact (List.filter_sublist _).filter _
    exact le_trans hsub.length_le (h3 m hm)

theorem wf_exec {p : Passage} (hw : WFpassage p) (op : L1Op) : WFpassage (exec p op) := by
  cases op with
  | terminal text pn parag pps => exact wf_add_terminal hw text pn parag pps
  | fnode parent tag impl => exact wf_add_fnode hw parent tag impl
  | punct parent term => exact wf_add_punct hw parent term
  | remote parent tag child => exact wf_add_remote hw parent tag child
  | linkage relation args => exact wf_add_linkage hw relation args
  | termEdge parent term => exact wf_addTerminalEdge hw parent term
  | linkArg lkg arg => exact wf_addLinkArgument hw lkg arg
  | destroyOp n => exact wf_destroy hw n

theorem wf_newPassage : WFpassage newPassage := by
  refine ⟨?_, ?_, ?_⟩
  · intro nd hnd _
    simp only [newPassage, addLayer1, addLayer0, Passage.empty, List.nil_append,
      List.mem_singleton] at hnd
    subst hnd
    decide
  · intro e he _
    simp [newPassage, addLayer1, addLayer0, Passage.empty] at he
  · intro n _
    simp [primaryEdges, newPassage, addLayer1, addLayer0, Passage.empty]

theorem wf_execList (ops : List L1Op) : ∀ p, WFpassage p → WFpassage (execList p ops) := by
  induction ops with
  | nil => exact fun p hp => hp
  | cons op ops ih => exact fun p hp => ih (exec p op) (wf_exec hp op)

/-- C1: for every node of the foundational layer, the node is in
`Layer.heads` if and only if every incoming edge of the node is a remote
edge (in particular when it has zero incoming edges); in the test fixture
the heads are the layer root and the two linkage nodes. -/
theorem claim_C1 :
    (∀ (p : Passage) (nd : PNode), nd ∈ p.nodes → nd.id.layer = 1 →
      (nd ∈ heads p 1 ↔ ∀ e ∈ p.edges, e.child = nd.id → e.remote = true))
    ∧ (heads fixture 1).map (fun nd => nd.id) = [⟨1, 1⟩, ⟨1, 17⟩, ⟨1, 18⟩] := by
  constructor
  · intro p nd hnd hl
    constructor
    · intro hh e he hc
      simp only [heads, List.mem_filter] at hh
      have hall := hh.2
      rw [List.all_eq_true] at hall
      refine hall e ?_
      simp only [incoming, List.mem_filter]
      exact ⟨he, by rw [beq_iff_eq]; exact hc⟩
    · intro hr
      simp only [heads, List.mem_filter]
      constructor
      · simp only [layerAll, List.mem_filter]
        exact ⟨hnd, by rw [beq_iff_eq]; exact hl⟩
      · rw [List.all_eq_true]
        intro e he
        simp only [incoming, List.mem_filter] at he
        exact hr e he.1 (beq_iff_eq.mp he.2)
  · decide

/-- C1 witness: in `smallPassage` the node 1.3 has exactly one incoming
edge, which is remote, and the characterisation puts it among the heads. -/
theorem claim_C1_witness :
    (⟨⟨1, 3⟩, "FN", false, "", false, 0, 0, 0⟩ : PNode) ∈ heads smallPassage 1 ∧
    (incoming smallPassage ⟨1, 3⟩).length = 1 ∧
    (incoming smallPassage ⟨1, 3⟩).all (fun e => e.remote) = true :=
  ⟨(claim_C1.1 smallPassage ⟨⟨1, 3⟩, "FN", false, "", false, 0, 0, 0⟩
      (by decide) rfl).mpr (by decide),
   by decide, by decide⟩

/-- C2: `get_terminals` always returns a strictly increasing, duplicate-free
sequence of positions, and on the test fixture's scene `ps1` it returns
positions 2-10 with default flags, adds position 15 with `remotes=True`, and
drops position 10 with `punct=False`. -/
theorem claim_C2 :
    (∀ (p : Passage) (n : NId) (punct remotes : Bool),
      List.Sorted (fun a b => a < b) (get_terminals p n punct remotes)
      ∧ (get_terminals p n punct remotes).Nodup)
    ∧ get_terminals fixture ⟨1, 3⟩ true false = [2, 3, 4, 5, 6, 7, 8, 9, 10]
    ∧ get_terminals fixture ⟨1, 3⟩ true true = [2, 3, 4, 5, 6, 7, 8, 9, 10, 15]
    ∧ get_terminals fixture ⟨1, 3⟩ false true = [2, 3, 4, 5, 6, 7, 8, 9, 15]
    ∧ get_terminals fixture ⟨1, 3⟩ false false = [2, 3, 4, 5, 6, 7, 8, 9] := by
  refine ⟨?_, by decide, by decide, by decide, by decide⟩
  intro p n punct remotes
  exact ⟨get_terminals_sorted p n punct remotes,
    (get_terminals_sorted p n punct remotes).nodup⟩

/-- C4: in the fixture, `top_scenes` is `[ps1, ps2, ps3]`; the grouping node
`ps23` is not a scene; after a Process-tagged edge is added from `ps23` the
node becomes a Scene and `top_scenes` is `[ps1, ps23]`, the formerly
top-level `ps2`/`ps3` being superseded. -/
theorem claim_C4 :
    (top_scenes fixture).map (fun nd => nd.id) = [⟨1, 3⟩, ⟨1, 8⟩, ⟨1, 12⟩]
    ∧ isScene fixture ⟨1, 7⟩ = false
    ∧ isScene fixtureB ⟨1, 7⟩ = true
    ∧ (top_scenes fixtureB).map (fun nd => nd.id) = [⟨1, 3⟩, ⟨1, 7⟩] :=
  ⟨by decide, by decide, by decide, by decide⟩

/-- An operation sequence using only the claimed operations (`add_fnode`,
`add_linkage`) after which node 1.2 — a layer-1 foundational node — has two
non-remote incoming edges: the `H` edge from the layer root created by
`add_fnode`, and the non-remote `LA` edge the linkage adds when 1.2 is
passed as its argument (exactly the shape
`l1.add_linkage(link1, ps1)` of `Layer1Tests._create_passage`). -/
def opsCE : List L1Op :=
  [L1Op.fnode none "H" false,
   L1Op.fnode none "L" false,
   L1Op.linkage ⟨1, 3⟩ [⟨1, 2⟩]]

/-- C3 counterexample: after a sequence of the claimed operations, the
layer-1 node 1.2 has two non-remote incoming edges, so "every layer-1 node
has at most one non-remote incoming edge" fails as stated. -/
theorem claim_C3_counterexample :
    (nonRemoteIncoming (execList newPassage opsCE) ⟨1, 2⟩).length = 2 ∧
    (⟨1, 2⟩ : NId).layer = 1 ∧
    hasNode (execList newPassage opsCE) ⟨1, 2⟩ = true := by
  refine ⟨by decide, rfl, by decide⟩

/-- C3 (amended): after every sequence of `add_fnode`, `add_punct`,
`add_remote`, `add_linkage` and `destroy` operations (terminal creation and
the generic terminal/argument attachments of the tests included), every
layer-1 node has at most one non-remote incoming edge whose source is not a
Linkage node; `fparent` returns the source of that unique edge, or none when
no such edge exists; and `add_remote` never changes any node's `fparent`. -/
theorem claim_C3 (ops : List L1Op) :
    (∀ n : NId, n.layer = 1 →
      (primaryEdges (execList newPassage ops) n).length ≤ 1)
    ∧ (∀ (q : Passage) (n : NId),
        (primaryEdges q n = [] → fparent q n = none)
        ∧ ∀ e : Edge, primaryEdges q n = [e] → fparent q n = some e.parent)
    ∧ (∀ (q : Passage) (parent : NId) (tag : String) (child x : NId),
        fparent (add_remote q parent tag child) x = fparent q x) := by
  refine ⟨?_, ?_, ?_⟩
  · exact (wf_execList ops newPassage wf_newPassage).2.2
  · intro q n
    constructor
    · intro h
      simp [fparent, h]
    · intro e h
      simp [fparent, h]
  · intro q parent tag child x
    simp only [add_remote]
    cases hf1 : q.nodeById parent with
    | none => rfl
    | some parNd =>
      cases hf2 : q.nodeById child with
      | none => rfl
      | some cNd =>
        dsimp only
        unfold fparent primaryEdges
        rw [List.filter_append, List.filter_cons, primPred_false_of_remote rfl]
        simp

/-- C3 witness: the amended statement applied to the test fixture — the node
`ps1` (1.3) keeps a single primary edge and its `fparent` is the layer root
1.1, even though it is also a linkage argument, and a remote addition leaves
`fparent` unchanged. -/
theorem claim_C3_witness :
    (primaryEdges (execList newPassage fixtureOps) ⟨1, 3⟩).length ≤ 1 ∧
    fparent (execList newPassage fixtureOps) ⟨1, 3⟩ = some ⟨1, 1⟩ ∧
    fparent (add_remote fixture ⟨1, 7⟩ "P" ⟨1, 4⟩) ⟨1, 10⟩ = fparent fixture ⟨1, 10⟩ :=
  ⟨(claim_C3 fixtureOps).1 ⟨1, 3⟩ rfl,
   (claim_C3 fixtureOps).2.1 (execList newPassage fixtureOps) ⟨1, 3⟩ |>.2
     ⟨⟨1, 1⟩, tagFN, "H", ⟨1, 3⟩, false⟩ (by decide),
   (claim_C3 fixtureOps).2.2 fixture ⟨1, 7⟩ "P" ⟨1, 4⟩ ⟨1, 10⟩⟩

/-- C5: after `destroy`, the node is absent from its layer's `all` and
`heads`; every other node's children list is exactly its old children list
minus the edges that pointed to the destroyed node; and no other node is
removed (children are not destroyed). -/
theorem claim_C5 :
    ∀ (p : Passage) (n : NId) (lid : Nat),
      (∀ nd ∈ layerAll (destroy p n) lid, nd.id ≠ n)
      ∧ (∀ nd ∈ heads (destroy p n) lid, nd.id ≠ n)
      ∧ (∀ m : NId, m ≠ n →
          outgoing (destroy p n) m = (outgoing p m).filter (fun e => !(e.child == n)))
      ∧ (∀ nd ∈ p.nodes, nd.id ≠ n → nd ∈ (destroy p n).nodes) := by
  intro p n lid
  have hall : ∀ nd ∈ layerAll (destroy p n) lid, nd.id ≠ n := by
    intro nd hnd
    simp only [layerAll, destroy, List.mem_filter, Bool.not_eq_true'] at hnd
    exact beq_eq_false_iff_ne.mp hnd.1.2
  refine ⟨hall, ?_, ?_, ?_⟩
  · intro nd hnd
    simp only [heads, List.mem_filter] at hnd
    exact hall nd hnd.1
  · intro m hm
    simp only [outgoing, destroy]
    rw [List.filter_filter, List.filter_filter]
    apply List.filter_congr
    intro e _
    by_cases hpm : e.parent = m
    · have h2 : (m == n) = false := beq_eq_false_iff_ne.mpr hm
      simp [hpm, h2]
    · have h2 : (e.parent == m) = false := beq_eq_false_iff_ne.mpr hpm
      simp [h2]
  · intro nd hnd hne
    simp only [destroy, List.mem_filter]
    refine ⟨hnd, ?_⟩
    rw [Bool.not_eq_true']
    exact beq_eq_false_iff_ne.mpr hne

/-- C5 witness: destroying `d2` (1.10) in the fixture — `ps2`'s children
list keeps exactly its edges not pointing at 1.10, and `a2` (1.9) survives
the destruction of its sibling. -/
theorem claim_C5_witness :
    outgoing (destroy fixture ⟨1, 10⟩) ⟨1, 8⟩ =
      (outgoing fixture ⟨1, 8⟩).filter (fun e => !(e.child == (⟨1, 10⟩ : NId))) ∧
    (⟨⟨1, 9⟩, "FN", false, "", false, 0, 0, 0⟩ : PNode) ∈ (destroy fixture ⟨1, 10⟩).nodes :=
  ⟨(claim_C5 fixture ⟨1, 10⟩ 1).2.2.1 ⟨1, 8⟩ (by decide),
   (claim_C5 fixture ⟨1, 10⟩ 1).2.2.2 ⟨⟨1, 9⟩, "FN", false, "", false, 0, 0, 0⟩
     (by decide) (by decide)⟩

/-- C6: a Linkage node is in `top_linkages` iff each of its arguments is
transitively a top-level scene; in the test scenario, appending the
non-top-level argument `ps23` to `lkg1` removes it from `top_linkages`, and
the remote Process edge that later makes `ps23` a top-level scene puts
`lkg1` back. -/
theorem claim_C6 :
    (∀ (p : Passage) (nd : PNode), nd ∈ layerAll p 1 →
      (nd ∈ top_linkages p ↔ nd.tag = tagLKG ∧
        ∀ a ∈ linkageArguments p nd.id, reachesTopScene p (p.nodes.length + 1) a = true))
    ∧ (top_linkages fixture).map (fun nd => nd.id) = [⟨1, 17⟩, ⟨1, 18⟩]
    ∧ (top_linkages fixtureA).map (fun nd => nd.id) = [⟨1, 18⟩]
    ∧ (top_linkages fixtureB).map (fun nd => nd.id) = [⟨1, 17⟩, ⟨1, 18⟩] := by
  refine ⟨?_, by decide, by decide, by decide⟩
  intro p nd hmem
  simp only [top_linkages, List.mem_filter, Bool.and_eq_true, beq_iff_eq, List.all_eq_true]
  constructor
  · intro h
    exact ⟨h.2.1, h.2.2⟩
  · intro h
    exact ⟨hmem, h.1, h.2⟩

/-- C6 witness: the characterisation applied to `lkg1` in the fixture, whose
single argument `ps1` is a top-level scene. -/
theorem claim_C6_witness :
    (⟨⟨1, 17⟩, "LKG", false, "", false, 0, 0, 0⟩ : PNode) ∈ top_linkages fixture ∧
    linkageArguments fixture ⟨1, 17⟩ = [⟨1, 3⟩] :=
  ⟨(claim_C6.1 fixture ⟨⟨1, 17⟩, "LKG", false, "", false, 0, 0, 0⟩ (by decide)).mpr
      ⟨rfl, by decide⟩,
   by decide⟩

/-- C7: `Passage.layer(i)` returns the layer with id `i` when one exists and
fails with `KeyError` when none does. -/
theorem claim_C7 :
    ∀ (p : Passage) (i : Nat),
      ((∃ l ∈ p.layers, l.ID = i) → Passage.layer p i = Except.ok ⟨i⟩)
      ∧ ((∀ l ∈ p.layers, l.ID ≠ i) → Passage.layer p i = Except.error PyErr.keyError) := by
  intro p i
  constructor
  · intro h
    have hs : (p.layers.find? (fun l => l.ID == i)).isSome := by
      rw [List.find?_isSome]
      obtain ⟨l, hl, hid⟩ := h
      exact ⟨l, hl, by rw [beq_iff_eq]; exact hid⟩
    rw [Option.isSome_iff_exists] at hs
    obtain ⟨l, hl⟩ := hs
    obtain ⟨lid⟩ := l
    have hp := List.find?_some hl
    have hid : lid = i := beq_iff_eq.mp hp
    subst hid
    unfold Passage.layer
    rw [hl]
  · intro h
    have hnone : p.layers.find? (fun l => l.ID == i) = none := by
      rw [List.find?_eq_none]
      intro l hl
      rw [beq_iff_eq]
      exact h l hl
    unfold Passage.layer
    rw [hnone]

/-- C7 witness: the fixture has layers 0 and 1; looking up layer 1 succeeds
and looking up layer 3 raises `KeyError`. -/
theorem claim_C7_witness :
    Passage.layer fixture 1 = Except.ok ⟨1⟩ ∧
    Passage.layer fixture 3 = Except.error PyErr.keyError :=
  ⟨(claim_C7 fixture 1).1 ⟨⟨1⟩, by decide, rfl⟩,
   (claim_C7 fixture 3).2 (by decide)⟩

/-- Selector for terminal-creation operations. -/
def isTermCall : L1Op → Bool
  | L1Op.terminal _ _ _ _ => true
  | _ => false

theorem l0count_exec (p : Passage) (op : L1Op) :
    (exec p op).l0count = p.l0count + (if isTermCall op then 1 else 0) := by
  cases op with
  | terminal text pn parag pps => simp [exec, add_terminal, isTermCall]
  | fnode parent tag impl =>
    simp only [exec, add_fnode, isTermCall]
    cases p.nodeById (parent.getD ⟨1, 1⟩) <;> simp
  | punct parent term =>
    simp only [exec, add_punct, isTermCall]
    cases p.nodeById (parent.getD ⟨1, 1⟩) with
    | none => simp
    | some parNd =>
      cases p.nodeById term with
      | none => simp
      | some tNd =>
        dsimp only
        split <;> simp
  | remote parent tag child =>
    simp only [exec, add_remote, isTermCall]
    cases p.nodeById parent with
    | none => simp
    | some parNd =>
      cases p.nodeById child with
      | none => simp
      | some cNd => simp
  | linkage relation args =>
    simp only [exec, add_linkage, isTermCall]
    split <;> simp
  | termEdge parent term =>
    simp only [exec, addTerminalEdge, isTermCall]
    cases p.nodeById parent with
    | none => simp
    | some parNd =>
      cases p.nodeById term with
      | none => simp
      | some tNd =>
        dsimp only
        split <;> simp
  | linkArg lkg arg =>
    simp only [exec, addLinkArgument, isTermCall]
    cases p.nodeById lkg with
    | none => simp
    | some lkgNd =>
      dsimp only
      split <;> simp
  | destroyOp n => simp [exec, destroy, isTermCall]

theorem l0count_execList (ops : List L1Op) :
    ∀ p : Passage, (execList p ops).l0count = p.l0count + (ops.filter isTermCall).length := by
  induction ops with
  | nil => intro p; rfl
  | cons op ops ih =>
    intro p
    have hstep : execList p (op :: ops) = execList (exec p op) ops := rfl
    rw [hstep, ih (exec p op), l0count_exec, List.filter_cons]
    by_cases ht : isTermCall op = true
    · rw [if_pos ht, if_pos ht]
      simp only [List.length_cons]
      omega
    · rw [if_neg ht, if_neg ht]
      omega

/-- C8: a call to `add_terminal` on any reachable passage creates a terminal
whose global position is one more than the number of terminals previously
created in the layer; when the paragraph is omitted it defaults to the
previous terminal's paragraph (1 for the first terminal), and the omitted
position-in-paragraph defaults to 1 when the terminal's paragraph differs
from the previous terminal's, and to the previous position-in-paragraph
plus 1 otherwise. -/
theorem claim_C8 (ops : List L1Op) (text : String) (pn : Bool) (parag pps : Option Nat) :
    ((add_terminal (execList newPassage ops) text pn parag pps).2).position
      = (ops.filter isTermCall).length + 1
    ∧ (parag = none →
        ((add_terminal (execList newPassage ops) text pn parag pps).2).paragraph
          = (match (terminals (execList newPassage ops)).getLast? with
             | some prev => prev.paragraph
             | none => 1))
    ∧ (pps = none →
        ((add_terminal (execList newPassage ops) text pn parag pps).2).paraPos
          = (match (terminals (execList newPassage ops)).getLast? with
             | some prev =>
               if ((add_terminal (execList newPassage ops) text pn parag pps).2).paragraph
                   = prev.paragraph
               then prev.paraPos + 1 else 1
             | none => 1))
    ∧ (add_terminal (execList newPassage ops) text pn parag pps).2
        ∈ terminals ((add_terminal (execList newPassage ops) text pn parag pps).1) := by
  refine ⟨?_, ?_, ?_, ?_⟩
  · show (execList newPassage ops).l0count = (ops.filter isTermCall).length + 1
    rw [l0count_execList ops newPassage]
    show 1 + (ops.filter isTermCall).length = (ops.filter isTermCall).length + 1
    omega
  · intro h
    subst h
    rfl
  · intro h
    subst h
    rfl
  · simp [add_terminal, terminals, layerAll]

/-- C8 witness: the first terminal of a fresh passage gets position 1 and
paragraph 1; in the `Layer0Tests.test_layer0` sequence the third terminal
(same paragraph 2 as the second) gets position-in-paragraph 2. -/
theorem claim_C8_witness :
    ((add_terminal (execList newPassage []) "1" false none none).2).position = 1 ∧
    ((add_terminal (execList newPassage []) "1" false none none).2).paragraph = 1 ∧
    ((add_terminal (execList newPassage [termOp 1, L1Op.terminal "2" true (some 2) none])
        "3" false (some 2) none).2).paraPos = 2 :=
  ⟨(claim_C8 [] "1" false none none).1,
   ((claim_C8 [] "1" false none none).2.1 rfl).trans (by decide),
   ((claim_C8 [termOp 1, L1Op.terminal "2" true (some 2) none]
       "3" false (some 2) none).2.2.1 rfl).trans (by decide)⟩

theorem getLast?_cons_isSome (hd : Nat) (tl : List Nat) :
    ∃ b, (hd :: tl).getLast? = some b := by
  induction tl generalizing hd with
  | nil => exact ⟨hd, rfl⟩
  | cons z zs ih =>
    rw [List.getLast?_cons_cons]
    exact ih z

/-- C9: `start_position`/`end_position` are the minimum and maximum position
among `get_terminals()` with default flags, and both degrade to the sentinel
-1 when the node has no terminals; on the fixture, `ps1` ends at 10, `ps2`
starts at 11, `ps3` starts at 17, and the implicit node `a4` reports -1. -/
theorem claim_C9 :
    (∀ (p : Passage) (n : NId),
      (get_terminals p n true false = [] →
        start_position p n = -1 ∧ end_position p n = -1)
      ∧ (∀ x ∈ get_terminals p n true false,
          start_position p n ≤ (x : Int) ∧ (x : Int) ≤ end_position p n)
      ∧ (get_terminals p n true false ≠ [] →
          (∃ a ∈ get_terminals p n true false, ((a : Nat) : Int) = start_position p n)
          ∧ ∃ b ∈ get_terminals p n true false, ((b : Nat) : Int) = end_position p n))
    ∧ end_position fixture ⟨1, 3⟩ = 10
    ∧ start_position fixture ⟨1, 8⟩ = 11
    ∧ start_position fixture ⟨1, 12⟩ = 17
    ∧ start_position fixture ⟨1, 15⟩ = -1
    ∧ end_position fixture ⟨1, 15⟩ = -1 := by
  refine ⟨?_, by decide, by decide, by decide, by decide, by decide⟩
  intro p n
  have hs := get_terminals_sorted p n true false
  refine ⟨?_, ?_, ?_⟩
  · intro h
    constructor
    · simp [start_position, h]
    · simp [end_position, h]
  · intro x hx
    cases hgt : get_terminals p n true false with
    | nil =>
      rw [hgt] at hx
      simp at hx
    | cons hd tl =>
      rw [hgt] at hx hs
      constructor
      · have hle := sorted_cons_le hs x hx
        simp only [start_position, hgt]
        exact_mod_cast hle
      · obtain ⟨b, hb⟩ := getLast?_cons_isSome hd tl
        have hxb := sorted_getLast_ge hs x hx b hb
        simp only [end_position, hgt, hb]
        exact_mod_cast hxb
  · intro hne
    cases hgt : get_terminals p n true false with
    | nil => exact absurd hgt hne
    | cons hd tl =>
      constructor
      · refine ⟨hd, List.mem_cons_self hd tl, ?_⟩
        simp [start_position, hgt]
      · obtain ⟨b, hb⟩ := getLast?_cons_isSome hd tl
        refine ⟨b, getLast?_mem_list hb, ?_⟩
        simp [end_position, hgt, hb]

/-- C9 witness: the implicit node `a4` (1.15) has no terminals and reports
-1 for both boundaries; position 5 of `ps1`'s span lies between `ps1`'s
boundaries. -/
theorem claim_C9_witness :
    start_position fixture ⟨1, 15⟩ = -1 ∧ end_position fixture ⟨1, 15⟩ = -1 ∧
    start_position fixture ⟨1, 3⟩ ≤ (5 : Int) ∧ (5 : Int) ≤ end_position fixture ⟨1, 3⟩ :=
  ⟨((claim_C9.1 fixture ⟨1, 15⟩).1 (by decide)).1,
   ((claim_C9.1 fixture ⟨1, 15⟩).1 (by decide)).2,
   ((claim_C9.1 fixture ⟨1, 3⟩).2.1 5 (by decide)).1,
   ((claim_C9.1 fixture ⟨1, 3⟩).2.1 5 (by decide)).2⟩

theorem getD_mem_of_lt {lines : List String} {j : Nat} (h : j < lines.length) :
    lines.getD j "" ∈ lines := by
  induction lines generalizing j with
  | nil => simp at h
  | cons a as ih =>
    cases j with
    | zero => simp [List.getD]
    | succ j =>
      simp only [List.getD_cons_succ]
      exact List.mem_cons_of_mem a (ih (by simpa using h))

theorem merge_go_ok (lines : List String)
    (hwf : ∀ l ∈ lines, (parse_ngram_line l).isSome) :
    ∀ (fuel i : Nat), lines.length ≤ i + fuel →
    (∀ j, i ≤ j → j + 1 < lines.length → ngramAt lines j ≠ ngramAt lines (j + 1)) →
    merge_go lines i fuel = Except.ok lines := by
  intro fuel
  induction fuel with
  | zero =>
    intro i _ _
    rfl
  | succ fuel ih =>
    intro i hlen hnd
    simp only [merge_go]
    by_cases hi : i + 1 < lines.length
    · rw [if_pos hi]
      have h1 := hwf _ (getD_mem_of_lt (show i < lines.length by omega))
      rw [Option.isSome_iff_exists] at h1
      obtain ⟨⟨c1, n1⟩, hp1⟩ := h1
      have h2 := hwf _ (getD_mem_of_lt hi)
      rw [Option.isSome_iff_exists] at h2
      obtain ⟨⟨c2, n2⟩, hp2⟩ := h2
      rw [hp1, hp2]
      have hne : n1 ≠ n2 := by
        intro hc
        apply hnd i (le_refl i) hi
        simp only [ngramAt, hp1, hp2, Option.map_some']
        rw [hc]
      dsimp only
      rw [if_neg hne]
      exact ih (i + 1) (by omega) (fun j hj hjl => hnd j (by omega) hjl)
    · rw [if_neg hi]

theorem merge_go_err (lines : List String)
    (hwf : ∀ l ∈ lines, (parse_ngram_line l).isSome) :
    ∀ (fuel i : Nat), lines.length ≤ i + fuel →
    (∃ j, i ≤ j ∧ j + 1 < lines.length ∧ ngramAt lines j = ngramAt lines (j + 1)) →
    merge_go lines i fuel = Except.error PyErr.typeError := by
  intro fuel
  induction fuel with
  | zero =>
    intro i hlen h
    obtain ⟨j, hij, hjl, _⟩ := h
    exact absurd hjl (by omega)
  | succ fuel ih =>
    intro i hlen h
    obtain ⟨j, hij, hjl, heq⟩ := h
    simp only [merge_go]
    by_cases hi : i + 1 < lines.length
    · rw [if_pos hi]
      have h1 := hwf _ (getD_mem_of_lt (show i < lines.length by omega))
      rw [Option.isSome_iff_exists] at h1
      obtain ⟨⟨c1, n1⟩, hp1⟩ := h1
      have h2 := hwf _ (getD_mem_of_lt hi)
      rw [Option.isSome_iff_exists] at h2
      obtain ⟨⟨c2, n2⟩, hp2⟩ := h2
      rw [hp1, hp2]
      dsimp only
      by_cases hnn : n1 = n2
      · rw [if_pos hnn]
      · rw [if_neg hnn]
        apply ih (i + 1) (by omega)
        have hji : j ≠ i := by
          intro hc
          subst hc
          apply hnn
          simp only [ngramAt, hp1, hp2, Option.map_some'] at heq
          exact Option.some.inj heq
        exact ⟨j, by omega, hjl, heq⟩
    · exact absurd hjl (by omega)

/-- C10: for well-formed ngram lines with no two adjacent lines parsing to
the same ngram, `merge_ngrams` returns its argument unchanged; as soon as
some adjacent pair parses to the same ngram, the call raises `TypeError`
(the source invokes `str.join` with two positional arguments in the merge
branch), so `merge_ngrams` never produces a merged line. -/
theorem claim_C10 (lines : List String)
    (hwf : ∀ l ∈ lines, (parse_ngram_line l).isSome) :
    ((∀ j, j + 1 < lines.length → ngramAt lines j ≠ ngramAt lines (j + 1)) →
      merge_ngrams lines = Except.ok lines)
    ∧ ((∃ j, j + 1 < lines.length ∧ ngramAt lines j = ngramAt lines (j + 1)) →
      merge_ngrams lines = Except.error PyErr.typeError) := by
  constructor
  · intro h
    exact merge_go_ok lines hwf lines.length 0 (by omega) (fun j _ hjl => h j hjl)
  · intro h
    obtain ⟨j, hjl, heq⟩ := h
    exact merge_go_err lines hwf lines.length 0 (by omega) ⟨j, by omega, hjl, heq⟩

/-- C10 witness: two well-formed lines with distinct ngrams pass through
unchanged, and two well-formed lines with the same ngram raise `TypeError`. -/
theorem claim_C10_witness :
    merge_ngrams ["3\ta b\n", "2\tb c\n"] = Except.ok ["3\ta b\n", "2\tb c\n"] ∧
    merge_ngrams ["3\ta b\n", "2\ta b\n"] = Except.error PyErr.typeError :=
  ⟨(claim_C10 ["3\ta b\n", "2\tb c\n"] (by decide)).1
      (by
        intro j hj
        have hj0 : j = 0 := by
          simp only [List.length_cons, List.length_nil] at hj
          omega
        subst hj0
        decide),
   (claim_C10 ["3\ta b\n", "2\ta b\n"] (by decide)).2 ⟨0, by decide, by decide⟩⟩
